import Mathlib

/-!
# ADXL312 accelerometer driver

A shallow embedding of the driver class AccelSensor (accelerometer.cpp,
accelerometer.h), of the bus helpers it calls (i2cFunctions.h) and of the
register map (ADXL312_defines.h), followed by theorems about the embedding.

Conventions of the embedding.

* A byte is a natural number; every place where the program stores a value
  into a char reduces it modulo 256.
* short is 16 bits and int is 32 bits, both in twos-complement; a value of
  type short is an integer kept inside [-32768, 32767] by toShort.
* The quantities the C++ standard leaves to the implementation and that the
  program depends on are the fields of Platform.
* The outside world (the kernel and the device behind the bus) is a World:
  it fixes the result of every system call, indexed by the number of calls of
  that kind made before it.  The program is deterministic, so every run of
  the program is the run against one such world.
* Every system call and every sleep is appended to the trace of the State.
* Printing to std::cout and stderr has no influence on results or on the
  bus traffic and is left out, and with it the parameter debugOn.
* The function angle and the method getRobotOrientation compute in float and
  are not embedded; the destructor is not needed by any statement below.
-/

namespace ADXL312

/-! ## Constants (ADXL312_defines.h, accelerometer.h, i2cFunctions.h) -/

def ADXL312_BUS_ADDRESS : Nat := 0x53
def ADXL312_DEVID : Int := 0xE5
def ADXL312_SETTLING_TIME : Nat := 15

def ADXL312_RA_DEVID : Nat := 0x00
def ADXL312_RA_OFSX : Nat := 0x1E
def ADXL312_RA_OFSY : Nat := 0x1F
def ADXL312_RA_OFSZ : Nat := 0x20
def ADXL312_RA_ACT_INACT_CTL : Nat := 0x27
def ADXL312_RA_BW_RATE : Nat := 0x2C
def ADXL312_RA_POWER_CTL : Nat := 0x2D
def ADXL312_RA_INT_ENABLE : Nat := 0x2E
def ADXL312_RA_INT_MAP : Nat := 0x2F
def ADXL312_RA_INT_SOURCE : Nat := 0x30
def ADXL312_RA_DATA_FORMAT : Nat := 0x31
def ADXL312_RA_DATAX0 : Nat := 0x32
def ADXL312_RA_FIFO_CTL : Nat := 0x38

def ACCEL_ERROR_IFACE_FAIL : Int := 0
def ACCEL_ERROR_COM_FAIL : Int := 1
def ACCEL_RETRY_INTERVAL : Nat := 1

def I2CADDRESSMODE_7BITS : Nat := 0
def I2CADDRESSMODE_10BITS : Nat := 1

/-! ## Platform, world, state -/

/-- Implementation-defined quantities the program depends on. -/
structure Platform where
  /-- The value of sizeof(char*), in bytes. -/
  sizeofPtr : Nat
  /-- Whether plain char is a signed type. -/
  charSigned : Bool
  /-- Whether a 16-bit integer is stored low byte first. -/
  littleEndian : Bool
  deriving DecidableEq, Repr

/-- The results of the system calls, and the content of storage the program
reads without having written it. -/
structure World where
  /-- Result of open(device, O_RDWR): a file descriptor, or negative. -/
  openResult : Int
  /-- Whether the k-th call of write returns a non-negative count. -/
  writeOk : Nat → Bool
  /-- Result of the k-th call of read: none when it returns a negative
  count, otherwise the bytes it delivers. -/
  readResult : Nat → Option (List Nat)
  /-- Content of the uninitialised local answer of waitForData, for the
  call entered after k calls of write. -/
  uninitAnswer : Nat → Nat
  /-- Content of the k-th byte behind the array offsets[3] in the frame of
  performCalibration. -/
  pastOffsets : Nat → Nat

/-- One observable action of the program. -/
inductive Event where
  | sysOpen : Event
  | ioctlSlave (slaveAddress : Nat) : Event
  | ioctlTenbit (slaveAddress : Nat) : Event
  | write (bytes : List Nat) : Event
  | read (length : Nat) : Event
  | usleep (usec : Nat) : Event
  deriving DecidableEq, Repr

/-- Number of write and read calls made so far, and everything done so
far. -/
structure State where
  nWrites : Nat
  nReads : Nat
  trace : List Event
  deriving DecidableEq, Repr

/-- Struct shortTriple of accelerometer.h. -/
structure shortTriple where
  x : Int
  y : Int
  z : Int
  deriving DecidableEq, Repr

/-- Class AccelError of accelerometer.h. -/
structure AccelError where
  errorNumber : Int
  deriving DecidableEq, Repr

/-! ## Machine integers -/

/-- Conversion of an int to short: the value modulo 2^16 in [-32768, 32767]. -/
def toShort (v : Int) : Int := (v + 32768) % 65536 - 32768

/-- Conversion of an int to a char, as the byte stored in memory. -/
def toByte (v : Int) : Nat := (v % 256).toNat

/-- Value of a char holding the byte b, after promotion to int, when plain
char is signed and when it is not. -/
def charValue (signed : Bool) (b : Nat) : Int :=
  if signed && decide (128 ≤ b % 256) then ((b % 256 : Nat) : Int) - 256
  else ((b % 256 : Nat) : Int)

/-- The 32 bits of an int in twos-complement, as a natural number. -/
def intBits (v : Int) : Nat := (v % 4294967296).toNat

/-- The short stored at index i of a char buffer seen through a short
pointer (the reinterpret_cast of getRawAccelValues). -/
def shortAt (p : Platform) (buf : List Nat) (i : Nat) : Int :=
  if p.littleEndian then
    toShort ((buf.getD (2 * i) 0 : Nat) + 256 * (buf.getD (2 * i + 1) 0 : Nat))
  else
    toShort (256 * (buf.getD (2 * i) 0 : Nat) + (buf.getD (2 * i + 1) 0 : Nat))

/-! ## System calls -/

/-- The call write(handle, bytes, bytes.length). -/
def sysWrite (w : World) (bytes : List Nat) (s : State) : Bool × State :=
  (w.writeOk s.nWrites,
   { s with nWrites := s.nWrites + 1, trace := s.trace ++ [Event.write bytes] })

/-- The call read(handle, buffer, length). -/
def sysRead (w : World) (length : Nat) (s : State) : Option (List Nat) × State :=
  (w.readResult s.nReads,
   { s with nReads := s.nReads + 1, trace := s.trace ++ [Event.read length] })

/-- The call usleep(usec). -/
def usleep (usec : Nat) (s : State) : State :=
  { s with trace := s.trace ++ [Event.usleep usec] }

/-- A buffer after the first bytes of it were overwritten by fresh. -/
def overwrite (fresh buffer : List Nat) : List Nat :=
  fresh ++ buffer.drop fresh.length

/-! ## i2cFunctions.h -/

/-- Function i2cIfaceInit: returns the handle. -/
def i2cIfaceInit (w : World) (slaveAddress addressMode : Nat) (s : State) : Int × State :=
  let s1 : State := { s with trace := s.trace ++ [Event.sysOpen] }
  if w.openResult < 0 then (w.openResult, s1)
  else if addressMode = I2CADDRESSMODE_10BITS then
    (w.openResult, { s1 with trace := s1.trace ++ [Event.ioctlTenbit slaveAddress] })
  else
    (w.openResult, { s1 with trace := s1.trace ++ [Event.ioctlSlave slaveAddress] })

/-- What i2cRequest leaves behind: its return value, the buffer inputBytes
and the state. -/
structure RequestResult where
  ret : Int
  bytes : List Nat
  state : State

/-- Function i2cRequest: writes the register address, then reads length
bytes into inputBytes. -/
def i2cRequest (w : World) (address : Nat) (inputBytes : List Nat) (length : Nat)
    (s : State) : RequestResult :=
  let a := sysWrite w [address % 256] s
  if a.1 = false then ⟨-1, inputBytes, a.2⟩
  else
    let r := sysRead w length a.2
    match r.1 with
    | none => ⟨-1, inputBytes, r.2⟩
    | some bs => ⟨0, overwrite ((bs.take length).map (· % 256)) inputBytes, r.2⟩

/-- Function i2cWriteCont.  The argument outputBytes is a pointer, given here
as the memory behind it (byte k at outputBytes + k).  Both sizeof
expressions of the source are the size of a pointer: the block holds the
address followed by sizeofPtr bytes of that memory, and its first
sizeofPtr bytes are written. -/
def i2cWriteCont (p : Platform) (w : World) (address : Nat) (outputBytes : Nat → Nat)
    (s : State) : Int × State :=
  let outputWithAddress : List Nat :=
    (address % 256) :: (List.range p.sizeofPtr).map (fun k => outputBytes k % 256)
  let a := sysWrite w (outputWithAddress.take p.sizeofPtr) s
  if a.1 = false then (-1, a.2) else (0, a.2)

/-- Function i2cWrite: one write of the address followed by the byte. -/
def i2cWrite (w : World) (address : Nat) (outputByte : Nat) (s : State) : Int × State :=
  let a := sysWrite w [address % 256, outputByte % 256] s
  if a.1 = false then (-1, a.2) else (0, a.2)

/-! ## accelerometer.cpp -/

/-- The loop of waitForData with n iterations left (n = 10000 - i) and the
current content of the local answer. -/
def waitForDataLoop (p : Platform) (w : World) : Nat → Nat → State → Bool × State
  | 0, _, s => (false, s)
  | n + 1, answer, s =>
    let r := i2cRequest w ADXL312_RA_INT_SOURCE [answer] 1 s
    let answer1 := r.bytes.headD answer
    if intBits (charValue p.charSigned answer1) &&& 0x80 = 0x80 then (true, r.state)
    else waitForDataLoop p w n answer1 (usleep (ACCEL_RETRY_INTERVAL * 1000) r.state)

/-- Method AccelSensor::waitForData. -/
def waitForData (p : Platform) (w : World) (s : State) : Bool × State :=
  waitForDataLoop p w 10000 (w.uninitAnswer s.nWrites % 256) s

/-- Method AccelSensor::getRawAccelValues. -/
def getRawAccelValues (p : Platform) (w : World) (s : State) : shortTriple × State :=
  let d := waitForData p w s
  if d.1 = false then (⟨0, 0, 0⟩, d.2)
  else
    let r := i2cRequest w ADXL312_RA_DATAX0 [0, 0, 0, 0, 0, 0] 6 d.2
    (⟨shortAt p r.bytes 0, shortAt p r.bytes 1, shortAt p r.bytes 2⟩, r.state)

/-- The loop "for (int i = 0; i < 100; i++)" of performSelfTest and
performCalibration with n iterations left: each one adds a raw sample to
the short fields of measured. -/
def sampleLoop (p : Platform) (w : World) : Nat → shortTriple → State → shortTriple × State
  | 0, measured, s => (measured, s)
  | n + 1, measured, s =>
    let t := getRawAccelValues p w s
    sampleLoop p w n
      ⟨toShort (measured.x + t.1.x), toShort (measured.y + t.1.y),
       toShort (measured.z + t.1.z)⟩ t.2

/-- The three statements "measured.x /= 100" and so on. -/
def divideBy100 (m : shortTriple) : shortTriple :=
  ⟨toShort (Int.tdiv m.x 100), toShort (Int.tdiv m.y 100), toShort (Int.tdiv m.z 100)⟩

/-- The loop over 100 samples followed by the three divisions, as it stands
twice in performSelfTest and once in performCalibration. -/
def meanOf100 (p : Platform) (w : World) (s : State) : shortTriple × State :=
  let a := sampleLoop p w 100 ⟨0, 0, 0⟩ s
  (divideBy100 a.1, a.2)

/-- The condition of the if statement that ends performSelfTest. -/
def selfTestRejects (measured selfTest : shortTriple) : Bool :=
  decide (selfTest.x - measured.x < 68) || decide (selfTest.y - measured.y < -764)
    || decide (selfTest.y - measured.y < 101) || decide (selfTest.x - measured.x > 764)
    || decide (selfTest.y - measured.y > -32) || decide (selfTest.y - measured.y > 1241)

/-- Method AccelSensor::performSelfTest. -/
def performSelfTest (p : Platform) (w : World) (s : State) : Bool × State :=
  let m := meanOf100 p w s
  let s1 := (i2cWrite w ADXL312_RA_DATA_FORMAT 0x81 m.2).2
  let s2 := usleep (ADXL312_SETTLING_TIME * 1000) s1
  let t := meanOf100 p w s2
  let s3 := (i2cWrite w ADXL312_RA_DATA_FORMAT 0x08 t.2).2
  let s4 := usleep (ADXL312_SETTLING_TIME * 1000) s3
  if selfTestRejects m.1 t.1 then (false, s4) else (true, s4)

/-- The three assignments to offsets[0..2] of performCalibration, as the
bytes stored. -/
def calculateOffsets (measured : shortTriple) : List Nat :=
  [toByte (-(toShort (Int.tdiv measured.x 4))),
   toByte (-(toShort (Int.tdiv measured.y 4))),
   toByte (-(toShort (Int.tdiv (measured.x - 256) 4)))]

/-- The memory behind the pointer offsets that performCalibration hands to
i2cWriteCont: the three elements of the array, then what follows it. -/
def offsetsMemory (w : World) (offsets : List Nat) (k : Nat) : Nat :=
  if k < 3 then offsets.getD k 0 else w.pastOffsets (k - 3)

/-- Method AccelSensor::performCalibration. -/
def performCalibration (p : Platform) (w : World) (s : State) : Bool × State :=
  let m := meanOf100 p w s
  let offsets := calculateOffsets m.1
  let c := i2cWriteCont p w ADXL312_RA_OFSX (offsetsMemory w offsets) m.2
  (true, c.2)

/-- Method AccelSensor::init. -/
def init (w : World) (s : State) : State :=
  let s1 := (i2cWrite w ADXL312_RA_ACT_INACT_CTL 0x00 s).2
  let s2 := (i2cWrite w ADXL312_RA_BW_RATE 0x0B s1).2
  let s3 := (i2cWrite w ADXL312_RA_DATA_FORMAT 0x0B s2).2
  let s4 := (i2cWrite w ADXL312_RA_INT_ENABLE 0x80 s3).2
  let s5 := (i2cWrite w ADXL312_RA_INT_MAP 0x80 s4).2
  let s6 := (i2cWrite w ADXL312_RA_FIFO_CTL 0x00 s5).2
  let s7 := (i2cWrite w ADXL312_RA_POWER_CTL 0x08 s6).2
  usleep (ADXL312_SETTLING_TIME * 1000) s7

/-- The object a successful construction yields. -/
structure AccelSensor where
  i2cConnectionHandle : Int
  deriving DecidableEq, Repr

/-- Constructor AccelSensor::AccelSensor: the error thrown or the object
constructed, and the state. -/
def AccelSensor.new (p : Platform) (w : World) (sensorAddress : Nat) (runSelfTest : Bool)
    (s : State) : Except AccelError AccelSensor × State :=
  let h := i2cIfaceInit w sensorAddress I2CADDRESSMODE_7BITS s
  if h.1 < 0 then (Except.error ⟨ACCEL_ERROR_IFACE_FAIL⟩, h.2)
  else
    let s1 := init w h.2
    let r := i2cRequest w ADXL312_RA_DEVID [0x78] 1 s1
    let answer := r.bytes.headD 0x78
    if charValue p.charSigned answer ≠ ADXL312_DEVID then (Except.error ⟨ACCEL_ERROR_COM_FAIL⟩, r.state)
    else if runSelfTest then (Except.ok ⟨h.1⟩, (performSelfTest p w r.state).2)
    else (Except.ok ⟨h.1⟩, r.state)

/-! ## Vocabulary of the statements -/

/-- The events of n polls of the interrupt-source register that each found
the data-ready bit clear: address write, one-byte read, sleep of 1000 us. -/
def pollTrace : Nat → List Event
  | 0 => []
  | n + 1 => [Event.write [0x30], Event.read 1, Event.usleep 1000] ++ pollTrace n

/-- Whether an event is part of a poll of the interrupt-source register. -/
def isPollEvent (e : Event) : Prop :=
  e = Event.write [0x30] ∨ e = Event.read 1 ∨ e = Event.usleep 1000

/-- The events of init: seven register writes and the settling sleep. -/
def initTrace : List Event :=
  [Event.write [0x27, 0x00], Event.write [0x2C, 0x0B], Event.write [0x31, 0x0B],
   Event.write [0x2E, 0x80], Event.write [0x2F, 0x80], Event.write [0x38, 0x00],
   Event.write [0x2D, 0x08], Event.usleep 15000]

/-- The two bytes of a 16-bit twos-complement value, low byte first. -/
def encodeShort (v : Int) : List Nat := [(v % 256).toNat, (v / 256 % 256).toNat]

/-- The six bytes of a sample as the data registers 0x32 to 0x37 hold it. -/
def encodeSample (x y z : Int) : List Nat := encodeShort x ++ encodeShort y ++ encodeShort z

/-- The offset codes as the specification words them: the 8-bit
twos-complement codes of -(mx/4), -(my/4) and -((mz - 256)/4), the division
truncating toward zero. -/
def specOffsets (mean : shortTriple) : List Nat :=
  [toByte (-(Int.tdiv mean.x 4)), toByte (-(Int.tdiv mean.y 4)),
   toByte (-(Int.tdiv (mean.z - 256) 4))]

/-- The mean as the specification words it: the exact sum of the samples
divided by 100, truncating toward zero. -/
def specMean (samples : List Int) : Int := Int.tdiv samples.sum 100

/-- The raw samples that the n iterations of sampleLoop obtain, in order. -/
def samplesRead (p : Platform) (w : World) : Nat → State → List shortTriple
  | 0, _ => []
  | n + 1, s => (getRawAccelValues p w s).1 :: samplesRead p w n (getRawAccelValues p w s).2

/-! ## Concrete platforms and worlds -/

/-- A 32-bit little-endian host with unsigned plain char (ARM Linux, EABI). -/
def hostArm32 : Platform := ⟨4, false, true⟩

/-- A 64-bit little-endian host with signed plain char (x86-64 Linux). -/
def hostX86_64 : Platform := ⟨8, true, true⟩

/-- A 32-bit big-endian host with unsigned plain char. -/
def hostBigEndian : Platform := ⟨4, false, false⟩

/-- The state before anything happened. -/
def freshState : State := ⟨0, 0, []⟩

/-- A device that answers every one-byte read with the byte b. -/
def constantWorld (b : Nat) : World :=
  ⟨3, fun _ => true, fun _ => some [b], fun _ => 0, fun _ => 0⟩

/-- A device whose data-ready bit is always set and whose data registers
always hold the six bytes data: seen from freshState, reads alternate
between the status byte 0x80 and the burst data. -/
def steadyWorld (data : List Nat) : World :=
  ⟨3, fun _ => true, fun k => if k % 2 = 0 then some [0x80] else some data,
   fun _ => 0, fun k => 0xA0 + k⟩

/-! # Theorems -/

/-! ## The data-ready test and one poll -/

set_option maxRecDepth 100000 in
theorem dataReady_test_byte :
    ∀ c : Bool, ∀ b, b < 256 → intBits (charValue c b) &&& 0x80 = b &&& 0x80 := by
  decide

theorem i2cRequest_status_ok (w : World) (s : State) (answer b : Nat)
    (hw : w.writeOk s.nWrites = true) (hr : w.readResult s.nReads = some [b]) (hb : b < 256) :
    i2cRequest w ADXL312_RA_INT_SOURCE [answer] 1 s
      = ⟨0, [b], ⟨s.nWrites + 1, s.nReads + 1,
          s.trace ++ [Event.write [0x30], Event.read 1]⟩⟩ := by
  simp [i2cRequest, sysWrite, sysRead, overwrite, hw, hr, ADXL312_RA_INT_SOURCE,
    Nat.mod_eq_of_lt hb]

theorem pollTrace_counts (n : Nat) :
    (pollTrace n).count (Event.read 1) = n ∧ (pollTrace n).count (Event.usleep 1000) = n
      ∧ (pollTrace n).count (Event.write [0x30]) = n ∧ (pollTrace n).length = 3 * n := by
  induction n with
  | zero => simp [pollTrace]
  | succ n ih =>
    obtain ⟨h1, h2, h3, h4⟩ := ih
    simp only [pollTrace, List.cons_append, List.nil_append, List.length_cons]
    refine ⟨?_, ?_, ?_, ?_⟩
    · rw [List.count_cons_of_ne (by simp), List.count_cons_self, List.count_cons_of_ne (by simp),
        h1]
    · rw [List.count_cons_of_ne (by simp), List.count_cons_of_ne (by simp), List.count_cons_self,
        h2]
    · rw [List.count_cons_self, List.count_cons_of_ne (by simp), List.count_cons_of_ne (by simp),
        h3]
    · omega

/-- The loop when none of the next n status bytes has the bit set. -/
theorem waitForDataLoop_never (p : Platform) (w : World) (status : Nat → Nat) :
    ∀ (n : Nat) (answer : Nat) (s : State),
      (∀ k, k < n → w.writeOk (s.nWrites + k) = true) →
      (∀ k, k < n → w.readResult (s.nReads + k) = some [status (s.nReads + k)]) →
      (∀ k, k < n → status (s.nReads + k) < 256) →
      (∀ k, k < n → status (s.nReads + k) &&& 0x80 ≠ 0x80) →
      waitForDataLoop p w n answer s
        = (false, ⟨s.nWrites + n, s.nReads + n, s.trace ++ pollTrace n⟩) := by
  intro n
  induction n with
  | zero => intro answer s _ _ _ _; simp [waitForDataLoop, pollTrace]
  | succ n ih =>
    intro answer s hw hr hb hc
    have hw0 := hw 0 (by omega)
    have hr0 := hr 0 (by omega)
    have hb0 := hb 0 (by omega)
    have hc0 := hc 0 (by omega)
    simp only [Nat.add_zero] at hw0 hr0 hb0 hc0
    rw [waitForDataLoop, i2cRequest_status_ok w s answer _ hw0 hr0 hb0]
    simp only [List.headD_cons, dataReady_test_byte p.charSigned _ hb0, hc0, if_false]
    rw [ih]
    · simp [usleep, pollTrace, ACCEL_RETRY_INTERVAL]; omega
    · intro k hk
      have := hw (k + 1) (by omega)
      simpa [usleep, Nat.add_assoc, Nat.add_comm 1 k] using this
    · intro k hk
      have := hr (k + 1) (by omega)
      simpa [usleep, Nat.add_assoc, Nat.add_comm 1 k] using this
    · intro k hk
      have := hb (k + 1) (by omega)
      simpa [usleep, Nat.add_assoc, Nat.add_comm 1 k] using this
    · intro k hk
      have := hc (k + 1) (by omega)
      simpa [usleep, Nat.add_assoc, Nat.add_comm 1 k] using this

/-- The loop when the status byte number k is the first with the bit set. -/
theorem waitForDataLoop_first (p : Platform) (w : World) (status : Nat → Nat) :
    ∀ (k n : Nat) (answer : Nat) (s : State), k < n →
      (∀ j, j ≤ k → w.writeOk (s.nWrites + j) = true) →
      (∀ j, j ≤ k → w.readResult (s.nReads + j) = some [status (s.nReads + j)]) →
      (∀ j, j ≤ k → status (s.nReads + j) < 256) →
      (∀ j, j < k → status (s.nReads + j) &&& 0x80 ≠ 0x80) →
      status (s.nReads + k) &&& 0x80 = 0x80 →
      waitForDataLoop p w n answer s
        = (true, ⟨s.nWrites + (k + 1), s.nReads + (k + 1),
            s.trace ++ pollTrace k ++ [Event.write [0x30], Event.read 1]⟩) := by
  intro k
  induction k with
  | zero =>
    intro n answer s hn hw hr hb _ hset
    obtain ⟨m, rfl⟩ : ∃ m, n = m + 1 := ⟨n - 1, by omega⟩
    have hw0 := hw 0 (le_refl _)
    have hr0 := hr 0 (le_refl _)
    have hb0 := hb 0 (le_refl _)
    simp only [Nat.add_zero] at hw0 hr0 hb0 hset
    rw [waitForDataLoop, i2cRequest_status_ok w s answer _ hw0 hr0 hb0]
    simp [dataReady_test_byte p.charSigned _ hb0, hset, pollTrace]
  | succ k ih =>
    intro n answer s hn hw hr hb hc hset
    obtain ⟨m, rfl⟩ : ∃ m, n = m + 1 := ⟨n - 1, by omega⟩
    have hw0 := hw 0 (by omega)
    have hr0 := hr 0 (by omega)
    have hb0 := hb 0 (by omega)
    have hc0 := hc 0 (by omega)
    simp only [Nat.add_zero] at hw0 hr0 hb0 hc0
    rw [waitForDataLoop, i2cRequest_status_ok w s answer _ hw0 hr0 hb0]
    simp only [List.headD_cons, dataReady_test_byte p.charSigned _ hb0, hc0, if_false]
    rw [ih m _ _ (by omega)]
    · simp [usleep, pollTrace, ACCEL_RETRY_INTERVAL]; omega
    · intro j hj
      have := hw (j + 1) (by omega)
      simpa [usleep, Nat.add_assoc, Nat.add_comm 1 j] using this
    · intro j hj
      have := hr (j + 1) (by omega)
      simpa [usleep, Nat.add_assoc, Nat.add_comm 1 j] using this
    · intro j hj
      have := hb (j + 1) (by omega)
      simpa [usleep, Nat.add_assoc, Nat.add_comm 1 j] using this
    · intro j hj
      have := hc (j + 1) (by omega)
      simpa [usleep, Nat.add_assoc, Nat.add_comm 1 j] using this
    · have := hset
      simpa [usleep, Nat.add_assoc, Nat.add_comm 1 k] using this

/-- Whatever the bus does, the loop only polls: it extends the trace by
poll events. -/
theorem waitForDataLoop_only_polls (p : Platform) (w : World) :
    ∀ (n : Nat) (answer : Nat) (s : State),
      ∃ evs, (waitForDataLoop p w n answer s).2.trace = s.trace ++ evs
        ∧ ∀ e, e ∈ evs → isPollEvent e := by
  intro n
  induction n with
  | zero => intro answer s; exact ⟨[], by simp [waitForDataLoop]⟩
  | succ n ih =>
    intro answer s
    have hreq : ∃ evs, (i2cRequest w ADXL312_RA_INT_SOURCE [answer] 1 s).state.trace
        = s.trace ++ evs ∧ ∀ e, e ∈ evs → isPollEvent e := by
      unfold i2cRequest
      by_cases hw : w.writeOk s.nWrites = true
      · cases hr : w.readResult s.nReads with
        | none =>
          refine ⟨[Event.write [0x30], Event.read 1], ?_, ?_⟩
          · simp [sysWrite, sysRead, hw, hr, ADXL312_RA_INT_SOURCE]
          · intro e he; simp at he; rcases he with rfl | rfl <;> simp [isPollEvent]
        | some bs =>
          refine ⟨[Event.write [0x30], Event.read 1], ?_, ?_⟩
          · simp [sysWrite, sysRead, hw, hr, ADXL312_RA_INT_SOURCE]
          · intro e he; simp at he; rcases he with rfl | rfl <;> simp [isPollEvent]
      · refine ⟨[Event.write [0x30]], ?_, ?_⟩
        · simp [sysWrite, hw, ADXL312_RA_INT_SOURCE]
        · intro e he; simp at he; subst he; simp [isPollEvent]
    obtain ⟨e1, h1, h1p⟩ := hreq
    rw [waitForDataLoop]
    split
    · exact ⟨e1, h1, h1p⟩
    · obtain ⟨e2, h2, h2p⟩ := ih
        ((i2cRequest w ADXL312_RA_INT_SOURCE [answer] 1 s).bytes.headD answer)
        (usleep (ACCEL_RETRY_INTERVAL * 1000) (i2cRequest w ADXL312_RA_INT_SOURCE [answer] 1 s).state)
      refine ⟨e1 ++ [Event.usleep 1000] ++ e2, ?_, ?_⟩
      · rw [h2]; simp [usleep, h1, ACCEL_RETRY_INTERVAL]
      · intro e he
        simp only [List.mem_append, List.mem_singleton] at he
        rcases he with (he | he) | he
        · exact h1p e he
        · subst he; simp [isPollEvent]
        · exact h2p e he

/-- The call waitForData when the status byte number k is the first with
the bit set. -/
theorem waitForData_first (p : Platform) (w : World) (s : State) (status : Nat → Nat)
    (hw : ∀ k, k < 10000 → w.writeOk (s.nWrites + k) = true)
    (hr : ∀ k, k < 10000 → w.readResult (s.nReads + k) = some [status k])
    (hb : ∀ k, k < 10000 → status k < 256)
    (k : Nat) (hk : k < 10000) (hclear : ∀ j, j < k → status j &&& 0x80 ≠ 0x80)
    (hset : status k &&& 0x80 = 0x80) :
    waitForData p w s = (true, ⟨s.nWrites + (k + 1), s.nReads + (k + 1),
      s.trace ++ pollTrace k ++ [Event.write [0x30], Event.read 1]⟩) := by
  have hst : ∀ j, s.nReads + j - s.nReads = j := fun j => by omega
  unfold waitForData
  apply waitForDataLoop_first p w (fun i => status (i - s.nReads)) k 10000 _ s hk
  · intro j hj; exact hw j (by omega)
  · intro j hj; rw [hst]; exact hr j (by omega)
  · intro j hj; rw [hst]; exact hb j (by omega)
  · intro j hj; rw [hst]; exact hclear j hj
  · rw [hst]; exact hset

/-- The call waitForData when none of the 10,000 status bytes has the bit
set. -/
theorem waitForData_never (p : Platform) (w : World) (s : State) (status : Nat → Nat)
    (hw : ∀ k, k < 10000 → w.writeOk (s.nWrites + k) = true)
    (hr : ∀ k, k < 10000 → w.readResult (s.nReads + k) = some [status k])
    (hb : ∀ k, k < 10000 → status k < 256)
    (hclear : ∀ k, k < 10000 → status k &&& 0x80 ≠ 0x80) :
    waitForData p w s = (false, ⟨s.nWrites + 10000, s.nReads + 10000,
      s.trace ++ pollTrace 10000⟩) := by
  have hst : ∀ j, s.nReads + j - s.nReads = j := fun j => by omega
  unfold waitForData
  apply waitForDataLoop_never p w (fun i => status (i - s.nReads)) 10000 _ s
  · exact hw
  · intro k hk; rw [hst]; exact hr k hk
  · intro k hk; rw [hst]; exact hb k hk
  · intro k hk; rw [hst]; exact hclear k hk

/-- A device that answers every status read with 0x00 lets waitForData run
out of its budget. -/
theorem waitForData_constantWorld_zero :
    (waitForData hostArm32 (constantWorld 0x00) freshState).1 = false := by
  rw [waitForData_never hostArm32 (constantWorld 0x00) freshState (fun _ => 0x00)
    (fun _ _ => rfl) (fun _ _ => rfl) (fun _ _ => by simp) (fun _ _ => by simp)]


/-! ## Register writes, init and traces -/

theorem i2cWrite_state (w : World) (address outputByte : Nat) (s : State) :
    (i2cWrite w address outputByte s).2
      = ⟨s.nWrites + 1, s.nReads, s.trace ++ [Event.write [address % 256, outputByte % 256]]⟩ := by
  unfold i2cWrite sysWrite
  dsimp only
  split <;> rfl

theorem init_eq (w : World) (s : State) :
    init w s = ⟨s.nWrites + 7, s.nReads, s.trace ++ initTrace⟩ := by
  simp [init, i2cWrite_state, usleep, initTrace, ADXL312_RA_ACT_INACT_CTL, ADXL312_RA_BW_RATE,
    ADXL312_RA_DATA_FORMAT, ADXL312_RA_INT_ENABLE, ADXL312_RA_INT_MAP, ADXL312_RA_FIFO_CTL,
    ADXL312_RA_POWER_CTL, ADXL312_SETTLING_TIME]

/-- Every i2cRequest starts with the write of the register address. -/
theorem i2cRequest_trace (w : World) (address : Nat) (inputBytes : List Nat) (length : Nat)
    (s : State) :
    ∃ rest, (i2cRequest w address inputBytes length s).state.trace
      = s.trace ++ Event.write [address % 256] :: rest := by
  unfold i2cRequest
  by_cases hw : w.writeOk s.nWrites = true
  · cases hr : w.readResult s.nReads with
    | none => exact ⟨[Event.read length], by simp [sysWrite, sysRead, hw, hr]⟩
    | some bs => exact ⟨[Event.read length], by simp [sysWrite, sysRead, hw, hr]⟩
  · exact ⟨[], by simp [sysWrite, hw]⟩

theorem getRawAccelValues_trace (p : Platform) (w : World) (s : State) :
    ∃ evs, (getRawAccelValues p w s).2.trace = s.trace ++ evs := by
  obtain ⟨e1, h1, _⟩ := waitForDataLoop_only_polls p w 10000 (w.uninitAnswer s.nWrites % 256) s
  unfold getRawAccelValues
  dsimp only
  split
  · exact ⟨e1, h1⟩
  · obtain ⟨e2, h2⟩ := i2cRequest_trace w ADXL312_RA_DATAX0 [0, 0, 0, 0, 0, 0] 6
      (waitForData p w s).2
    refine ⟨e1 ++ Event.write [ADXL312_RA_DATAX0 % 256] :: e2, ?_⟩
    simp only [h2]
    unfold waitForData
    rw [h1]
    simp

theorem sampleLoop_trace (p : Platform) (w : World) :
    ∀ (n : Nat) (m : shortTriple) (s : State),
      ∃ evs, (sampleLoop p w n m s).2.trace = s.trace ++ evs := by
  intro n
  induction n with
  | zero => intro m s; exact ⟨[], by simp [sampleLoop]⟩
  | succ n ih =>
    intro m s
    obtain ⟨e1, h1⟩ := getRawAccelValues_trace p w s
    rw [sampleLoop]
    obtain ⟨e2, h2⟩ := ih
      ⟨toShort (m.x + (getRawAccelValues p w s).1.x), toShort (m.y + (getRawAccelValues p w s).1.y),
        toShort (m.z + (getRawAccelValues p w s).1.z)⟩ (getRawAccelValues p w s).2
    exact ⟨e1 ++ e2, by rw [h2, h1]; simp⟩

theorem performSelfTest_trace (p : Platform) (w : World) (s : State) :
    ∃ evs, (performSelfTest p w s).2.trace = s.trace ++ evs := by
  obtain ⟨e1, h1⟩ := sampleLoop_trace p w 100 ⟨0, 0, 0⟩ s
  obtain ⟨e2, h2⟩ := sampleLoop_trace p w 100 ⟨0, 0, 0⟩
    (usleep (ADXL312_SETTLING_TIME * 1000)
      (i2cWrite w ADXL312_RA_DATA_FORMAT 0x81 (meanOf100 p w s).2).2)
  refine ⟨e1 ++ [Event.write [0x31, 0x81], Event.usleep 15000] ++ e2
    ++ [Event.write [0x31, 0x08], Event.usleep 15000], ?_⟩
  have hs : (performSelfTest p w s).2.trace
      = ((sampleLoop p w 100 ⟨0, 0, 0⟩ (usleep (ADXL312_SETTLING_TIME * 1000)
          (i2cWrite w ADXL312_RA_DATA_FORMAT 0x81 (meanOf100 p w s).2).2)).2.trace
          ++ [Event.write [0x31, 0x08], Event.usleep 15000]) := by
    unfold performSelfTest
    dsimp only
    split <;> simp [meanOf100, i2cWrite_state, usleep, ADXL312_RA_DATA_FORMAT,
      ADXL312_SETTLING_TIME]
  rw [hs, h2]
  simp [meanOf100, i2cWrite_state, usleep, h1, ADXL312_RA_DATA_FORMAT, ADXL312_SETTLING_TIME]


/-! ## Sixteen-bit arithmetic -/

theorem toShort_of_range (v : Int) (h : -32768 ≤ v ∧ v ≤ 32767) : toShort v = v := by
  unfold toShort
  omega

theorem toShort_add_toShort (a b : Int) : toShort (toShort a + b) = toShort (a + b) := by
  unfold toShort
  omega

/-- Decoding the two bytes of a 16-bit value low byte first gives it back. -/
theorem decode_encodeShort (v : Int) (h : -32768 ≤ v ∧ v ≤ 32767) :
    toShort (((v % 256).toNat : Int) + 256 * ((v / 256 % 256).toNat : Int)) = v := by
  have h1 : ((v % 256).toNat : Int) = v % 256 := Int.toNat_of_nonneg (by omega)
  have h2 : ((v / 256 % 256).toNat : Int) = v / 256 % 256 := Int.toNat_of_nonneg (by omega)
  rw [h1, h2]
  unfold toShort
  omega

theorem encode_byte_lt (v : Int) : (v % 256).toNat < 256 := by
  have h1 : ((v % 256).toNat : Int) = v % 256 := Int.toNat_of_nonneg (by omega)
  omega

/-- The burst read of the data registers when the bus delivers six bytes. -/
theorem i2cRequest_data_ok (w : World) (s : State) (b0 b1 b2 b3 b4 b5 : Nat)
    (hw : w.writeOk s.nWrites = true)
    (hr : w.readResult s.nReads = some [b0, b1, b2, b3, b4, b5]) :
    i2cRequest w ADXL312_RA_DATAX0 [0, 0, 0, 0, 0, 0] 6 s
      = ⟨0, [b0 % 256, b1 % 256, b2 % 256, b3 % 256, b4 % 256, b5 % 256],
          ⟨s.nWrites + 1, s.nReads + 1, s.trace ++ [Event.write [0x32], Event.read 6]⟩⟩ := by
  simp [i2cRequest, sysWrite, sysRead, overwrite, hw, hr, ADXL312_RA_DATAX0]

/-- The sums in the short fields are the exact sums reduced to 16 bits. -/
theorem sampleLoop_sum (p : Platform) (w : World) :
    ∀ (n : Nat) (m : shortTriple) (s : State),
      toShort (sampleLoop p w n m s).1.x
          = toShort (m.x + ((samplesRead p w n s).map (·.x)).sum)
      ∧ toShort (sampleLoop p w n m s).1.y
          = toShort (m.y + ((samplesRead p w n s).map (·.y)).sum)
      ∧ toShort (sampleLoop p w n m s).1.z
          = toShort (m.z + ((samplesRead p w n s).map (·.z)).sum) := by
  intro n
  induction n with
  | zero => intro m s; simp [sampleLoop, samplesRead]
  | succ n ih =>
    intro m s
    rw [sampleLoop, samplesRead]
    obtain ⟨h1, h2, h3⟩ := ih
      ⟨toShort (m.x + (getRawAccelValues p w s).1.x), toShort (m.y + (getRawAccelValues p w s).1.y),
        toShort (m.z + (getRawAccelValues p w s).1.z)⟩ (getRawAccelValues p w s).2
    rw [h1, h2, h3]
    simp only [List.map_cons, List.sum_cons, toShort_add_toShort, Int.add_assoc, and_self]

/-- Division by 4 truncating toward zero, in terms of the floor division. -/
theorem tdiv_four (a : Int) : a.tdiv 4 = if 0 ≤ a then a / 4 else -((-a) / 4) := by
  split
  · exact Int.tdiv_eq_ediv (by assumption) (by decide)
  · have h : a.tdiv 4 = -((-a).tdiv 4) := by rw [Int.neg_tdiv, Int.neg_neg]
    rw [h, Int.tdiv_eq_ediv (by omega) (by decide)]

/-- The offset codes of the program are those of the specification for a
mean whose z field is replaced by its x field. -/
theorem calculateOffsets_eq (m : shortTriple) (hx : -32768 ≤ m.x ∧ m.x ≤ 32767)
    (hy : -32768 ≤ m.y ∧ m.y ≤ 32767) :
    calculateOffsets m = specOffsets ⟨m.x, m.y, m.x⟩ := by
  unfold calculateOffsets specOffsets
  rw [toShort_of_range, toShort_of_range, toShort_of_range]
  · rw [tdiv_four]; split <;> omega
  · rw [tdiv_four]; split <;> omega
  · rw [tdiv_four]; split <;> omega

/-- The burst write of performCalibration on any platform: the address
0x1E, then the first sizeofPtr - 1 bytes of the memory at offsets. -/
theorem performCalibration_burst (p : Platform) (w : World) (s : State) :
    (performCalibration p w s).2.trace
      = (meanOf100 p w s).2.trace
        ++ [Event.write ((0x1E :: (List.range p.sizeofPtr).map
            (fun k => offsetsMemory w (calculateOffsets (meanOf100 p w s).1) k % 256)).take
              p.sizeofPtr)] := by
  unfold performCalibration i2cWriteCont sysWrite
  dsimp only
  split <;> simp [ADXL312_RA_OFSX]

/-! ## The constructor and the burst write, platform by platform -/

/-- When the transport does not open, the constructor throws number 0 and
has done nothing but the call of open. -/
theorem AccelSensor_new_open_fails (p : Platform) (w : World) (sensorAddress : Nat)
    (runSelfTest : Bool) (s : State) (h : w.openResult < 0) :
    AccelSensor.new p w sensorAddress runSelfTest s
      = (Except.error ⟨ACCEL_ERROR_IFACE_FAIL⟩,
          ⟨s.nWrites, s.nReads, s.trace ++ [Event.sysOpen]⟩) := by
  simp [AccelSensor.new, i2cIfaceInit, h]

/-- The read of the identity register when the bus delivers one byte. -/
theorem i2cRequest_identity_ok (w : World) (s : State) (b : Nat)
    (hw : w.writeOk s.nWrites = true) (hr : w.readResult s.nReads = some [b]) (hb : b < 256) :
    i2cRequest w ADXL312_RA_DEVID [0x78] 1 s
      = ⟨0, [b], ⟨s.nWrites + 1, s.nReads + 1,
          s.trace ++ [Event.write [0x00], Event.read 1]⟩⟩ := by
  simp [i2cRequest, sysWrite, sysRead, overwrite, hw, hr, ADXL312_RA_DEVID,
    Nat.mod_eq_of_lt hb]

/-- On a host whose plain char is unsigned: when the transport opens and
the read of the identity register delivers the byte b, the constructor
succeeds if b is 0xE5 and throws number 1 otherwise. -/
theorem AccelSensor_new_identity_unsigned (p : Platform) (w : World) (sensorAddress : Nat)
    (runSelfTest : Bool) (s : State) (b : Nat)
    (hp : p.charSigned = false) (hopen : 0 ≤ w.openResult)
    (hw : w.writeOk (s.nWrites + 7) = true) (hr : w.readResult s.nReads = some [b])
    (hb : b < 256) :
    (b = 0xE5 → (AccelSensor.new p w sensorAddress runSelfTest s).1 = Except.ok ⟨w.openResult⟩)
    ∧ (b ≠ 0xE5 → (AccelSensor.new p w sensorAddress runSelfTest s).1
        = Except.error ⟨ACCEL_ERROR_COM_FAIL⟩) := by
  have hnot : ¬ w.openResult < 0 := by omega
  have hinit : i2cIfaceInit w sensorAddress I2CADDRESSMODE_7BITS s
      = (w.openResult, ⟨s.nWrites, s.nReads,
          s.trace ++ [Event.sysOpen, Event.ioctlSlave sensorAddress]⟩) := by
    simp [i2cIfaceInit, hnot, I2CADDRESSMODE_7BITS, I2CADDRESSMODE_10BITS]
  have hval : charValue p.charSigned b = (b : Int) := by
    simp [charValue, hp, Nat.mod_eq_of_lt hb]
  unfold AccelSensor.new
  dsimp only
  rw [hinit]
  simp only [hnot, if_false, init_eq]
  rw [i2cRequest_identity_ok w ⟨s.nWrites + 7, s.nReads,
    s.trace ++ [Event.sysOpen, Event.ioctlSlave sensorAddress] ++ initTrace⟩ b hw hr hb]
  simp only [List.headD_cons, hval, ADXL312_DEVID]
  constructor
  · intro h
    subst h
    cases runSelfTest <;> simp
  · intro h
    have h2 : (b : Int) ≠ 229 := by omega
    simp [h2]

/-- On a host whose plain char is signed the constructor never succeeds,
whatever the bus delivers. -/
theorem AccelSensor_new_signed_never_ok (p : Platform) (w : World) (sensorAddress : Nat)
    (runSelfTest : Bool) (s : State) (hp : p.charSigned = true) (a : AccelSensor) :
    (AccelSensor.new p w sensorAddress runSelfTest s).1 ≠ Except.ok a := by
  have hval : ∀ b, charValue p.charSigned b ≠ ADXL312_DEVID := by
    intro b
    by_cases h128 : 128 ≤ b % 256
    · simp only [charValue, hp, h128, decide_True, Bool.and_self, if_true, ADXL312_DEVID]
      omega
    · simp only [charValue, hp, h128, decide_False, Bool.and_false, Bool.false_eq_true,
        if_false, ADXL312_DEVID]
      omega
  unfold AccelSensor.new
  dsimp only
  split
  · simp
  · simp [hval]

theorem toByte_lt (v : Int) : toByte v < 256 := encode_byte_lt v

/-- On a host whose pointers have 4 bytes the burst write of
performCalibration carries the address 0x1E and the three offset codes. -/
theorem performCalibration_burst_32bit (p : Platform) (w : World) (s : State)
    (hp : p.sizeofPtr = 4) :
    (performCalibration p w s).2.trace
      = (meanOf100 p w s).2.trace
          ++ [Event.write (0x1E :: calculateOffsets (meanOf100 p w s).1)] := by
  rw [performCalibration_burst, hp]
  simp [List.range_succ, offsetsMemory, calculateOffsets, Nat.mod_eq_of_lt (toByte_lt _)]

/-! ## Claims -/

/-- C2: over a bus on which the 10,000 polls of the interrupt-source register
all succeed and deliver the status bytes status 0, status 1, ...,
waitForData returns true exactly when one of these bytes has bit 0x80 set;
it stops at the first such byte, number k, after k + 1 reads and k sleeps of
1000 us (one read and no sleep when k = 0); and when no byte has the bit set
it returns false after exactly 10,000 reads and 10,000 sleeps of 1000 us. -/
theorem waitForData_poll_budget (p : Platform) (w : World) (s : State) (status : Nat → Nat)
    (hw : ∀ k, k < 10000 → w.writeOk (s.nWrites + k) = true)
    (hr : ∀ k, k < 10000 → w.readResult (s.nReads + k) = some [status k])
    (hb : ∀ k, k < 10000 → status k < 256) :
    ((waitForData p w s).1 = true ↔ ∃ k, k < 10000 ∧ status k &&& 0x80 = 0x80)
    ∧ (∀ k, k < 10000 → (∀ j, j < k → status j &&& 0x80 ≠ 0x80) → status k &&& 0x80 = 0x80 →
        waitForData p w s = (true, ⟨s.nWrites + (k + 1), s.nReads + (k + 1),
          s.trace ++ pollTrace k ++ [Event.write [0x30], Event.read 1]⟩))
    ∧ (status 0 &&& 0x80 = 0x80 →
        waitForData p w s = (true, ⟨s.nWrites + 1, s.nReads + 1,
          s.trace ++ [Event.write [0x30], Event.read 1]⟩))
    ∧ ((∀ k, k < 10000 → status k &&& 0x80 ≠ 0x80) →
        waitForData p w s = (false, ⟨s.nWrites + 10000, s.nReads + 10000,
          s.trace ++ pollTrace 10000⟩))
    ∧ (∀ n, (pollTrace n).count (Event.read 1) = n
        ∧ (pollTrace n).count (Event.usleep 1000) = n ∧ (pollTrace n).length = 3 * n) := by
  have hfirst := waitForData_first p w s status hw hr hb
  have hnever := waitForData_never p w s status hw hr hb
  refine ⟨?_, hfirst, ?_, hnever, ?_⟩
  · constructor
    · intro htrue
      by_contra hnone
      have hclear : ∀ k, k < 10000 → status k &&& 0x80 ≠ 0x80 := by
        intro k hk hset
        exact hnone ⟨k, hk, hset⟩
      rw [hnever hclear] at htrue
      simp at htrue
    · intro hex
      have hex2 : ∃ k, k < 10000 ∧ status k &&& 0x80 = 0x80 := hex
      classical
      have hmin := Nat.find_spec hex2
      have hlt : ∀ j, j < Nat.find hex2 → status j &&& 0x80 ≠ 0x80 := by
        intro j hj hset
        exact Nat.find_min hex2 hj ⟨by omega, hset⟩
      rw [hfirst (Nat.find hex2) hmin.1 hlt hmin.2]
  · intro h0
    have := hfirst 0 (by omega) (by intro j hj; omega) h0
    simpa [pollTrace] using this
  · intro n
    have := pollTrace_counts n
    exact ⟨this.1, this.2.1, this.2.2.2⟩

/-- Witness of C2: a device whose data-ready bit is set at once. -/
theorem waitForData_poll_budget_witness :
    waitForData hostArm32 (constantWorld 0x80) freshState
      = (true, ⟨1, 1, [Event.write [0x30], Event.read 1]⟩) :=
  (waitForData_poll_budget hostArm32 (constantWorld 0x80) freshState (fun _ => 0x80)
    (fun _ _ => rfl) (fun _ _ => rfl) (fun _ _ => by simp)).2.2.1 (by decide)

/-- C4: whenever waitForData returns false, getRawAccelValues returns the
zero triple in the state waitForData left, and everything it did on the
bus is polling of the interrupt-source register: address writes of 0x30,
one-byte reads and sleeps of 1000 us, hence no read of the data registers. -/
theorem getRawAccelValues_timeout (p : Platform) (w : World) (s : State)
    (h : (waitForData p w s).1 = false) :
    getRawAccelValues p w s = (⟨0, 0, 0⟩, (waitForData p w s).2)
    ∧ ∃ evs, (getRawAccelValues p w s).2.trace = s.trace ++ evs
        ∧ (∀ e, e ∈ evs → isPollEvent e)
        ∧ Event.write [0x32] ∉ evs ∧ Event.read 6 ∉ evs := by
  have hres : getRawAccelValues p w s = (⟨0, 0, 0⟩, (waitForData p w s).2) := by
    simp [getRawAccelValues, h]
  refine ⟨hres, ?_⟩
  obtain ⟨evs, h1, h2⟩ := waitForDataLoop_only_polls p w 10000 (w.uninitAnswer s.nWrites % 256) s
  refine ⟨evs, ?_, h2, ?_, ?_⟩
  · rw [hres]; exact h1
  · intro hmem
    have := h2 _ hmem
    simp [isPollEvent] at this
  · intro hmem
    have := h2 _ hmem
    simp [isPollEvent] at this

/-- Witness of C4: a device whose data-ready bit is never set. -/
theorem getRawAccelValues_timeout_witness :
    getRawAccelValues hostArm32 (constantWorld 0x00) freshState
      = (⟨0, 0, 0⟩, (waitForData hostArm32 (constantWorld 0x00) freshState).2) :=
  (getRawAccelValues_timeout hostArm32 (constantWorld 0x00) freshState
    waitForData_constantWorld_zero).1

/-- C7: init issues exactly seven single-register writes, in the order
(0x27, 0x00), (0x2C, 0x0B), (0x31, 0x0B), (0x2E, 0x80), (0x2F, 0x80),
(0x38, 0x00), (0x2D, 0x08), then sleeps 15000 us, and reads nothing; and when
the transport opens, the constructor does exactly open, ioctl, this
sequence, and next the address write of the identity register 0x00. -/
theorem init_sequence (p : Platform) (w : World) (sensorAddress : Nat) (runSelfTest : Bool)
    (s : State) :
    init w s = ⟨s.nWrites + 7, s.nReads, s.trace ++ initTrace⟩
    ∧ (0 ≤ w.openResult → ∃ rest,
        (AccelSensor.new p w sensorAddress runSelfTest s).2.trace
          = s.trace ++ [Event.sysOpen, Event.ioctlSlave sensorAddress] ++ initTrace
              ++ Event.write [0x00] :: rest) := by
  refine ⟨init_eq w s, ?_⟩
  intro hopen
  have hnot : ¬ w.openResult < 0 := by omega
  have hinit : i2cIfaceInit w sensorAddress I2CADDRESSMODE_7BITS s
      = (w.openResult, ⟨s.nWrites, s.nReads,
          s.trace ++ [Event.sysOpen, Event.ioctlSlave sensorAddress]⟩) := by
    simp [i2cIfaceInit, hnot, I2CADDRESSMODE_7BITS, I2CADDRESSMODE_10BITS]
  obtain ⟨r1, hr1⟩ := i2cRequest_trace w ADXL312_RA_DEVID [0x78] 1
    (init w (i2cIfaceInit w sensorAddress I2CADDRESSMODE_7BITS s).2)
  have hbase : (i2cRequest w ADXL312_RA_DEVID [0x78] 1
      (init w (i2cIfaceInit w sensorAddress I2CADDRESSMODE_7BITS s).2)).state.trace
        = s.trace ++ [Event.sysOpen, Event.ioctlSlave sensorAddress] ++ initTrace
            ++ Event.write [0x00] :: r1 := by
    rw [hr1, init_eq, hinit]
    simp [ADXL312_RA_DEVID]
  unfold AccelSensor.new
  dsimp only
  simp only [hinit, hnot, if_false]
  simp only [hinit] at hbase
  split
  · exact ⟨r1, hbase⟩
  · split
    · obtain ⟨evs, hevs⟩ := performSelfTest_trace p w
        (i2cRequest w ADXL312_RA_DEVID [0x78] 1 (init w ⟨s.nWrites, s.nReads,
          s.trace ++ [Event.sysOpen, Event.ioctlSlave sensorAddress]⟩)).state
      refine ⟨r1 ++ evs, ?_⟩
      rw [hevs, hbase]
      simp
    · exact ⟨r1, hbase⟩

/-- Witness of C7: the transport opens with descriptor 3. -/
theorem init_sequence_witness :
    ∃ rest, (AccelSensor.new hostArm32 (constantWorld 0xE5) ADXL312_BUS_ADDRESS false
        freshState).2.trace
      = freshState.trace ++ [Event.sysOpen, Event.ioctlSlave ADXL312_BUS_ADDRESS] ++ initTrace
          ++ Event.write [0x00] :: rest :=
  (init_sequence hostArm32 (constantWorld 0xE5) ADXL312_BUS_ADDRESS false freshState).2
    (by decide)

/-- C10: the rejection condition of performSelfTest holds for every pair of
means, whatever their z fields, so performSelfTest returns false for every
platform, world and state. -/
theorem performSelfTest_always_false :
    (∀ measured selfTest : shortTriple, selfTestRejects measured selfTest = true)
    ∧ (∀ (p : Platform) (w : World) (s : State), (performSelfTest p w s).1 = false) := by
  have h : ∀ measured selfTest : shortTriple, selfTestRejects measured selfTest = true := by
    intro m t
    simp only [selfTestRejects, Bool.or_eq_true, decide_eq_true_eq]
    omega
  refine ⟨h, ?_⟩
  intro p w s
  simp [performSelfTest, h]



/-- On a little-endian host the decode agrees with the fixed low-byte-first
order: for every triple (x, y, z) of signed 16-bit values, when waitForData
succeeds and the burst read that follows delivers the six bytes low(x),
high(x), low(y), high(y), low(z), high(z), getRawAccelValues returns exactly
(x, y, z), after one address write of 0x32 and one read of 6 bytes. -/
theorem getRawAccelValues_littleEndian (p : Platform) (w : World) (s : State) (x y z : Int)
    (hle : p.littleEndian = true)
    (hx : -32768 ≤ x ∧ x ≤ 32767) (hy : -32768 ≤ y ∧ y ≤ 32767)
    (hz : -32768 ≤ z ∧ z ≤ 32767)
    (hwait : (waitForData p w s).1 = true)
    (hw : w.writeOk (waitForData p w s).2.nWrites = true)
    (hr : w.readResult (waitForData p w s).2.nReads = some (encodeSample x y z)) :
    (getRawAccelValues p w s).1 = ⟨x, y, z⟩
    ∧ (getRawAccelValues p w s).2.trace
        = (waitForData p w s).2.trace ++ [Event.write [0x32], Event.read 6] := by
  unfold getRawAccelValues
  simp only [hwait, Bool.true_eq_false, if_false]
  rw [i2cRequest_data_ok w _ _ _ _ _ _ _ hw hr]
  refine ⟨?_, rfl⟩
  simp only [shortAt, hle, if_true, Nat.mul_zero, Nat.zero_add, List.getD_cons_zero,
    List.getD_cons_succ,
    Nat.mod_eq_of_lt (encode_byte_lt _)]
  rw [decode_encodeShort x hx, decode_encodeShort y hy, decode_encodeShort z hz]

/-- The sample (345, -1, -32768) on a little-endian host. -/
theorem getRawAccelValues_littleEndian_example :
    (getRawAccelValues hostArm32 (steadyWorld (encodeSample 345 (-1) (-32768))) freshState).1
      = ⟨345, -1, -32768⟩ :=
  (getRawAccelValues_littleEndian hostArm32 (steadyWorld (encodeSample 345 (-1) (-32768)))
    freshState 345 (-1) (-32768) rfl (by decide) (by decide) (by decide)
    (by rfl) (by rfl) (by rfl)).1

/-- C1, the code at the failing input: on a big-endian host the wait
succeeds and the burst read delivers the bytes of (1, 0, 0) low byte first,
1, 0, 0, 0, 0, 0; getRawAccelValues returns (256, 0, 0) where the fixed
low-byte-first decode gives (1, 0, 0). -/
theorem getRawAccelValues_bigEndian_decode :
    (waitForData hostBigEndian (steadyWorld (encodeSample 1 0 0)) freshState).1 = true
    ∧ (steadyWorld (encodeSample 1 0 0)).writeOk
        (waitForData hostBigEndian (steadyWorld (encodeSample 1 0 0)) freshState).2.nWrites = true
    ∧ (steadyWorld (encodeSample 1 0 0)).readResult
        (waitForData hostBigEndian (steadyWorld (encodeSample 1 0 0)) freshState).2.nReads
          = some (encodeSample 1 0 0)
    ∧ (getRawAccelValues hostBigEndian (steadyWorld (encodeSample 1 0 0)) freshState).1
        = ⟨256, 0, 0⟩
    ∧ (getRawAccelValues hostBigEndian (steadyWorld (encodeSample 1 0 0)) freshState).1
        ≠ ⟨1, 0, 0⟩ := by
  refine ⟨by rfl, by rfl, by rfl, by rfl, ?_⟩
  have h : (getRawAccelValues hostBigEndian (steadyWorld (encodeSample 1 0 0)) freshState).1
      = ⟨256, 0, 0⟩ := by rfl
  rw [h]
  decide

/-- C3, the code at the failing input: on a host whose plain char is signed,
with a transport that opens and a device that answers the read of the
identity register with 0xE5, the constructor throws AccelError number 1. -/
theorem AccelSensor_new_signedChar_identity :
    0 ≤ (constantWorld 0xE5).openResult
    ∧ (constantWorld 0xE5).readResult 0 = some [0xE5]
    ∧ (AccelSensor.new hostX86_64 (constantWorld 0xE5) ADXL312_BUS_ADDRESS false freshState).1
        = Except.error ⟨ACCEL_ERROR_COM_FAIL⟩ := by
  refine ⟨by decide, by rfl, by rfl⟩

/-- C5, the code at the failing input: for the means (0, 0, 256) the
program computes the offset codes 0, 0, 64 where the formula of the
specification gives 0, 0, 0; the third code comes from the x mean. A device
at rest with 256 on its z axis yields these means and the burst write of
0x1E, 0, 0, 64. -/
theorem calculateOffsets_z_from_x :
    calculateOffsets ⟨0, 0, 256⟩ = [0, 0, 64]
    ∧ specOffsets ⟨0, 0, 256⟩ = [0, 0, 0]
    ∧ (meanOf100 hostArm32 (steadyWorld (encodeSample 0 0 256)) freshState).1 = ⟨0, 0, 256⟩
    ∧ (performCalibration hostArm32 (steadyWorld (encodeSample 0 0 256)) freshState).2.trace.getLast?
        = some (Event.write [0x1E, 0, 0, 64]) := by
  refine ⟨by rfl, by rfl, by decide!, by decide!⟩

/-- C6, the code at the failing input: on a host whose pointers have 8
bytes, the burst write of performCalibration carries seven bytes after the
address 0x1E: the three offset codes and four bytes of the memory behind
the array, which land in the registers 0x21 to 0x24. -/
theorem performCalibration_burst_64bit :
    (performCalibration hostX86_64 (steadyWorld (encodeSample 0 0 0)) freshState).2.trace.getLast?
        = some (Event.write [0x1E, 0, 0, 64, 0xA0, 0xA1, 0xA2, 0xA3]) := by
  decide!

/-- C9, the code at the failing input: a device at rest that reports 345 on
its x axis in each of the 100 samples; the exact mean is 345, the program
obtains -310, the sum 34500 having left the range of short. -/
theorem meanOf100_overflow :
    samplesRead hostArm32 (steadyWorld (encodeSample 345 0 0)) 100 freshState
        = List.replicate 100 ⟨345, 0, 0⟩
    ∧ specMean ((samplesRead hostArm32 (steadyWorld (encodeSample 345 0 0)) 100 freshState).map
        (·.x)) = 345
    ∧ (meanOf100 hostArm32 (steadyWorld (encodeSample 345 0 0)) freshState).1 = ⟨-310, 0, 0⟩ := by
  refine ⟨by decide!, by decide!, by decide!⟩


end ADXL312
